import Mathlib

/-!
Verification of the HTML sanitization engine of `src/app.py`.

The repository contains two sanitizers over a BeautifulSoup parse tree:
`sanitize_html_` (the strict, collapse-to-`#` engine, lines 92-195) and
`sanitize_html` (the light, inert-scheme-prefix rewriter, lines 197-227,
the one the Streamlit pipeline calls at line 298).

The HTML parser and serializer are external library collaborators; we embed
the parse tree (elements with ordered attribute lists and children, text
nodes, comment nodes, as produced by `html.parser`, which lowercases tag
and attribute names) and the tree mutations the two sanitizers perform,
and prove the claims over all parse trees.
-/

/-- An attribute list: ordered association list from attribute name to value,
keys unique per element (BeautifulSoup attribute-dict semantics). -/
abbrev Attrs := List (String × String)

/-- A node of the parse tree: an element with tag name, attributes and
children, a text node, or a comment node. -/
inductive Node where
  | element (tag : String) (attrs : Attrs) (children : List Node)
  | text (s : String)
  | comment (s : String)

/-- A document: the list of top-level nodes of the soup. -/
abbrev Doc := List Node

/-- Python `s.startswith(pre)`, as a character-list prefix test (kept
kernel-computable; identical to byte-level prefix testing on these inputs). -/
def pyStartsWith (s pre : String) : Bool :=
  pre.data.isPrefixOf s.data

/-- Python `s.lower()`, character-wise lowercasing (attribute names here are
ASCII, where Python and Unicode lowercasing agree). -/
def pyLower (s : String) : String :=
  String.mk (s.data.map Char.toLower)

/-- First value bound to key `k`, mirroring `tag.get(k)` (keys are unique). -/
def getAttr : Attrs → String → Option String
  | [], _ => none
  | p :: r, k => if p.1 == k then some p.2 else getAttr r k

/-- Mirrors `tag.has_attr(k)`. -/
def hasAttr (a : Attrs) (k : String) : Bool :=
  (getAttr a k).isSome

/-- Mirrors `tag[k] = v`: update the existing entry in place, else append. -/
def setAttr : Attrs → String → String → Attrs
  | [], k, v => [(k, v)]
  | p :: r, k, v => if p.1 == k then (k, v) :: r else p :: setAttr r k v

/-- Mirrors `del tag[k]`. -/
def delAttr : Attrs → String → Attrs
  | [], _ => []
  | p :: r, k => if p.1 == k then delAttr r k else p :: delAttr r k

mutual

/-- Map an attribute transformation (which may depend on the tag name) over
every element of a node, recursively. -/
def mapN (f : String → Attrs → Attrs) : Node → Node
  | .element t a c => .element t (f t a) (mapD f c)
  | .text s => .text s
  | .comment s => .comment s

/-- `mapN` over a list of nodes. -/
def mapD (f : String → Attrs → Attrs) : List Node → List Node
  | [] => []
  | n :: r => mapN f n :: mapD f r

end

mutual

/-- Does `p` hold of some node in the tree rooted at the given node?
Mirrors a `soup.find_all` search (which visits every tag in the tree). -/
def anyN (p : Node → Bool) : Node → Bool
  | .element t a c => p (.element t a c) || anyD p c
  | .text s => p (.text s)
  | .comment s => p (.comment s)

/-- `anyN` over a list of nodes. -/
def anyD (p : Node → Bool) : List Node → Bool
  | [] => false
  | n :: r => anyN p n || anyD p r

end

/-- A predicate on elements only (inspecting tag and attributes), false on
text and comment nodes. -/
def elemPred (q : String → Attrs → Bool) : Node → Bool
  | .element t a _ => q t a
  | _ => false

mutual

/-- Remove every element whose tag name is in `ts`, together with its whole
subtree. Mirrors `for tag in soup.find_all(name): tag.decompose()` iterated
over the names in `ts`. -/
def removeTagsN (ts : List String) : Node → Option Node
  | .element t a c =>
      if ts.contains t then none else some (.element t a (removeTagsD ts c))
  | .text s => some (.text s)
  | .comment s => some (.comment s)

/-- `removeTagsN` over a list of nodes. -/
def removeTagsD (ts : List String) : List Node → List Node
  | [] => []
  | n :: r =>
      match removeTagsN ts n with
      | some n' => n' :: removeTagsD ts r
      | none => removeTagsD ts r

end

/-! ## The strict sanitizer `sanitize_html_` (src/app.py lines 92-195)

Each stage below embeds one loop of the function, in source order. The
`BeautifulSoup(html, "html.parser")` parse and the final `str(soup)`
serialization are the external parser/serializer collaborators; theorems
quantify over the parse tree `d : Doc`. -/

/-- Tags removed by the first loop (line 104):
`("script", "iframe", "object", "embed", "noscript", "base")`. -/
def dangerousTags : List String :=
  ["script", "iframe", "object", "embed", "noscript", "base"]

/-- Tags removed by the loop at line 176: `("video", "audio", "source", "track")`. -/
def mediaTags : List String :=
  ["video", "audio", "source", "track"]

/-- All twelve tag names eliminated by `sanitize_html_`: the first removal
group, then `link` (line 109), `meta` (lines 111-118, both branches of the
`http-equiv` test call `decompose()`, so every `meta` is removed), then the
media group. -/
def removedTags : List String :=
  ["script", "iframe", "object", "embed", "noscript", "base", "link", "meta",
   "video", "audio", "source", "track"]

/-- Lines 121-122: `for tag in soup.find_all(attrs={"srcset": True}): del tag["srcset"]`
(deleting `srcset` from an element that lacks it is a no-op, so mapping the
deletion over every element is the same tree). -/
def srcsetStage : Doc → Doc :=
  mapD (fun _ a => delAttr a "srcset")

/-- Lines 126-135, body of `for img in soup.find_all("img")`: delete `src`
and `srcset` if present, then delete every attribute whose name starts with
`"on"` (this loop uses `attr.startswith("on")`, case-sensitively). -/
def imgAttrsF (t : String) (a : Attrs) : Attrs :=
  if t == "img" then
    ((delAttr (delAttr a "src") "srcset").filter (fun p => !(pyStartsWith p.1 "on")))
  else a

/-- The img loop (lines 126-135) applied over the tree. -/
def imgStage : Doc → Doc :=
  mapD imgAttrsF

/-- Line 141's test: `href.startswith("#") or href.startswith("mailto:") or href.startswith("javascript:")`. -/
def hrefExempt (href : String) : Bool :=
  pyStartsWith href "#" || pyStartsWith href "mailto:" || pyStartsWith href "javascript:"

/-- Lines 138-145, body of `for tag in soup.find_all(href=True)`: keep the
`href` when it starts with `"#"`, `"mailto:"` or `"javascript:"`, else set
it to `"#"`. Elements without `href` are not visited (no-op on them). -/
def hrefFix (a : Attrs) : Attrs :=
  match getAttr a "href" with
  | none => a
  | some href =>
      if hrefExempt href then a
      else setAttr a "href" "#"

/-- The href loop (lines 138-145) applied over the tree. -/
def hrefStage : Doc → Doc :=
  mapD (fun _ a => hrefFix a)

/-- Lines 148-150: `for tag in soup.find_all(src=True): del tag["src"]`. -/
def srcStage : Doc → Doc :=
  mapD (fun _ a => delAttr a "src")

/-- Lines 153-157: for every tag, delete every attribute whose name
satisfies `a.lower().startswith("on")`. -/
def onStage : Doc → Doc :=
  mapD (fun _ a => a.filter (fun p => !(pyStartsWith (pyLower p.1) "on")))

/-- Line 165: `("submit", "image", "button")`. -/
def submitTypes : List String :=
  ["submit", "image", "button"]

/-- Lines 160-168, the attribute effect of the form loop on one element:
every `form` gets `action="#"` and `method="get"`; a descendant `input`
whose `btn.get("type", "").lower()` is in `submitTypes` and every
descendant `button` get `disabled="disabled"`. `inForm` records whether the
element is a strict descendant of some `form` (the scope of
`form.find_all(["input", "button"])`). -/
def formUpdate (inForm : Bool) (t : String) (a : Attrs) : Attrs :=
  if t == "form" then setAttr (setAttr a "action" "#") "method" "get"
  else if inForm && t == "input" && submitTypes.contains (pyLower ((getAttr a "type").getD "")) then
    setAttr a "disabled" "disabled"
  else if inForm && t == "button" then setAttr a "disabled" "disabled"
  else a

mutual

/-- The form-neutralization loops (lines 160-168) over one node. -/
def formN (inForm : Bool) : Node → Node
  | .element t a c => .element t (formUpdate inForm t a) (formD (inForm || t == "form") c)
  | .text s => .text s
  | .comment s => .comment s

/-- `formN` over a list of nodes. -/
def formD (inForm : Bool) : List Node → List Node
  | [] => []
  | n :: r => formN inForm n :: formD inForm r

end

/-- Lines 181-182: `for comment in soup.find_all(string=lambda text: isinstance(text, type(soup.Comment))): comment.extract()`.
`soup.Comment` goes through `Tag.__getattr__`, which returns
`soup.find("Comment")`; `html.parser` lowercases tag names, so no tag is
ever named `"Comment"` and the result is `None`. The predicate is therefore
`isinstance(text, NoneType)`, which holds of no navigable string: the loop
extracts nothing and the stage is the identity on the tree. -/
def commentStage (d : Doc) : Doc := d

/-- Line 186: the text of the sanitization notice. -/
def noticeText : String :=
  "/* This page was sanitized: scripts, iframes, external links and auto-fetching resources removed */"

/-- Line 188: the style attribute of the sanitization notice. -/
def noticeStyle : String :=
  "font-family:monospace; font-size:12px; opacity:0.85; padding:6px; border-bottom:1px solid #ddd;"

/-- Lines 185-188: `notice = soup.new_tag("div")`, `notice.string = ...`,
`notice["style"] = ...`. -/
def noticeNode : Node :=
  Node.element "div" [("style", noticeStyle)] [Node.text noticeText]

mutual

/-- Insert the notice as first child of the first `body` element (in the
depth-first order used by `soup.body`, i.e. `soup.find("body")`); `none`
when the subtree has no `body`. -/
def insBodyN : Node → Option Node
  | .element t a c =>
      if t == "body" then some (.element t a (noticeNode :: c))
      else
        match insBodyD c with
        | some c' => some (.element t a c')
        | none => none
  | .text _ => none
  | .comment _ => none

/-- `insBodyN` over a list of nodes, inserting into the first `body` found. -/
def insBodyD : List Node → Option (List Node)
  | [] => none
  | n :: r =>
      match insBodyN n with
      | some n' => some (n' :: r)
      | none =>
        match insBodyD r with
        | some r' => some (n :: r')
        | none => none

end

/-- Lines 190-193: `if soup.body: soup.body.insert(0, notice) else: soup.insert(0, notice)`. -/
def noticeStage (d : Doc) : Doc :=
  match insBodyD d with
  | some d' => d'
  | none => noticeNode :: d

/-- The strict sanitizer `sanitize_html_` (lines 92-195): the tree mutation
between the `BeautifulSoup` parse and the final `str(soup)`, with its loops
in source order. -/
def sanitize_html_ (d : Doc) : Doc :=
  let d1 := removeTagsD dangerousTags d
  let d2 := removeTagsD ["link"] d1
  let d3 := removeTagsD ["meta"] d2
  let d4 := srcsetStage d3
  let d5 := imgStage d4
  let d6 := hrefStage d5
  let d7 := srcStage d6
  let d8 := onStage d7
  let d9 := formD false d8
  let d10 := removeTagsD mediaTags d9
  let d11 := commentStage d10
  noticeStage d11

/-! ## The light sanitizer `sanitize_html` (src/app.py lines 197-227)

This is the function the pipeline actually calls (line 298). It keeps all
structure; it only rewrites `a@href` and `img@src`/`img@alt`. -/

/-- Lines 207-214, body of `for tag in soup.find_all("a", href=True)`: an
`href` starting with `"#"` is kept, any other `href` is prefixed with
`"https://noice://"`. Non-`a` elements and `a` without `href` are not
visited. -/
def aHrefRewrite (t : String) (a : Attrs) : Attrs :=
  if t == "a" then
    match getAttr a "href" with
    | none => a
    | some original =>
        if pyStartsWith original "#" then a
        else setAttr a "href" ("https://noice://" ++ original)
  else a

/-- Lines 217-225, body of `for img in soup.find_all("img", src=True)`:
prefix `src` with `"https://noice://"`; then `if not img.get("alt")` (true
when `alt` is absent or the empty string, by Python falsiness) set
`alt="[image disabled]"`. An `img` without `src` is not visited. -/
def imgSrcRewrite (t : String) (a : Attrs) : Attrs :=
  if t == "img" then
    match getAttr a "src" with
    | none => a
    | some original =>
        let a1 := setAttr a "src" ("https://noice://" ++ original)
        if ((getAttr a1 "alt").getD "") == "" then setAttr a1 "alt" "[image disabled]"
        else a1
  else a

/-- The light sanitizer `sanitize_html` (lines 197-227): the hyperlink
rewriting pass over the whole tree, then the image rewriting pass. -/
def sanitize_html (d : Doc) : Doc :=
  mapD imgSrcRewrite (mapD aHrefRewrite d)

/-! ## Serializer and pipeline boundary -/

/-- Attribute serialization, ` name="value"` for each attribute in order. -/
def serializeAttrs (a : Attrs) : String :=
  String.join (a.map (fun p => " " ++ p.1 ++ "=\"" ++ p.2 ++ "\""))

mutual

/-- Serialization of one node back to HTML text, abstracting `str(soup)`:
elements render as tag, attributes and serialized children between an open
and a close tag, text renders as its content, comments in comment markers. -/
def serializeN : Node → String
  | .element t a c => "<" ++ t ++ serializeAttrs a ++ ">" ++ serializeD c ++ "</" ++ t ++ ">"
  | .text s => s
  | .comment s => "<!--" ++ s ++ "-->"

/-- `serializeN` over a list of nodes, concatenated. -/
def serializeD : List Node → String
  | [] => ""
  | n :: r => serializeN n ++ serializeD r

end

/-- Recognizes the sanitization notice element. -/
def isNotice : Node → Bool
  | .element t a c =>
      t == "div" && a == [("style", noticeStyle)] &&
        (match c with
         | [Node.text s] => s == noticeText
         | _ => false)
  | _ => false

/-- The fallback document of the pipeline's `except` branch (line 301). -/
def fallbackHtml : String := "<p>Unable to sanitize content.</p>"

/-- Lines 297-301 of the pipeline: `sanitized = sanitize_html(html, ...)`
inside `try`, with `except Exception: sanitized = "<p>Unable to sanitize content.</p>"`.
The argument is the outcome of the sanitize call (its result, or the
exception it raised); the return value is what is handed to the renderer. -/
def renderSanitized (r : Except String String) : String :=
  match r with
  | Except.ok s => s
  | Except.error _ => fallbackHtml

/-! ## Attribute-level lemmas -/

theorem getAttr_setAttr_self (a : Attrs) (k v : String) :
    getAttr (setAttr a k v) k = some v := by
  induction a with
  | nil => simp [setAttr, getAttr]
  | cons p r ih =>
      by_cases h : p.1 = k
      · simp [setAttr, getAttr, h]
      · simp only [setAttr, getAttr, beq_iff_eq, h, if_false]
        exact ih

theorem getAttr_setAttr_ne (a : Attrs) (k v k' : String) (h : k' ≠ k) :
    getAttr (setAttr a k v) k' = getAttr a k' := by
  induction a with
  | nil => simp [setAttr, getAttr, Ne.symm h]
  | cons p r ih =>
      by_cases hp : p.1 = k
      · simp [setAttr, getAttr, hp, Ne.symm h]
      · simp only [setAttr, getAttr, beq_iff_eq, hp, if_false]
        by_cases hp' : p.1 = k'
        · simp [hp']
        · simp [hp', ih]

theorem getAttr_delAttr_self (a : Attrs) (k : String) :
    getAttr (delAttr a k) k = none := by
  induction a with
  | nil => simp [delAttr, getAttr]
  | cons p r ih =>
      by_cases h : p.1 = k
      · simp [delAttr, h, ih]
      · simp [delAttr, getAttr, h, ih]

theorem getAttr_delAttr_ne (a : Attrs) (k k' : String) (h : k' ≠ k) :
    getAttr (delAttr a k) k' = getAttr a k' := by
  induction a with
  | nil => simp [delAttr]
  | cons p r ih =>
      by_cases hp : p.1 = k
      · simp [delAttr, getAttr, hp, Ne.symm h, ih]
      · by_cases hp' : p.1 = k'
        · simp [delAttr, getAttr, hp, hp', h]
        · simp [delAttr, getAttr, hp, hp', ih]

theorem delAttr_of_getAttr_none (a : Attrs) (k : String) (h : getAttr a k = none) :
    delAttr a k = a := by
  induction a with
  | nil => simp [delAttr]
  | cons p r ih =>
      by_cases hp : p.1 = k
      · simp [getAttr, hp] at h
      · simp only [getAttr, beq_iff_eq, hp, if_false] at h
        simp [delAttr, hp, ih h]

theorem getAttr_filter_keep (a : Attrs) (k : String) (g : String × String → Bool)
    (hg : ∀ v, g (k, v) = true) : getAttr (a.filter g) k = getAttr a k := by
  induction a with
  | nil => simp [getAttr]
  | cons p r ih =>
      by_cases hp : p.1 = k
      · have : g p = true := by
          have := hg p.2
          rwa [show ((k, p.2) : String × String) = p by rw [← hp]] at this
        simp [List.filter, this, getAttr, hp]
      · cases hgp : g p <;> simp [List.filter, hgp, getAttr, hp, ih]

theorem getAttr_filter_none (a : Attrs) (k : String) (g : String × String → Bool)
    (h : getAttr a k = none) : getAttr (a.filter g) k = none := by
  induction a with
  | nil => simp [getAttr]
  | cons p r ih =>
      by_cases hp : p.1 = k
      · simp [getAttr, hp] at h
      · simp only [getAttr, beq_iff_eq, hp, if_false] at h
        cases hgp : g p <;> simp [List.filter, hgp, getAttr, hp, ih h]

theorem any_filter_not {α : Type} (l : List α) (g : α → Bool) :
    (l.filter (fun x => !(g x))).any g = false := by
  induction l with
  | nil => simp
  | cons x r ih =>
      cases hx : g x <;> simp [List.filter, hx, ih]

theorem any_filter_le {α : Type} (l : List α) (g h : α → Bool)
    (hl : l.any g = false) : (l.filter h).any g = false := by
  induction l with
  | nil => simp
  | cons x r ih =>
      simp only [List.any_cons, Bool.or_eq_false_iff] at hl
      cases hx : h x <;> simp [List.filter, hx, hl.1, ih hl.2]

theorem any_setAttr (a : Attrs) (k v : String) (g : String × String → Bool)
    (ha : a.any g = false) (hkv : g (k, v) = false) :
    (setAttr a k v).any g = false := by
  induction a with
  | nil => simp [setAttr, hkv]
  | cons p r ih =>
      simp only [List.any_cons, Bool.or_eq_false_iff] at ha
      by_cases hp : p.1 = k
      · simp [setAttr, hp, hkv, ha.2]
      · simp [setAttr, hp, ha.1, ih ha.2]

theorem any_delAttr (a : Attrs) (k : String) (g : String × String → Bool)
    (ha : a.any g = false) : (delAttr a k).any g = false := by
  induction a with
  | nil => simp [delAttr]
  | cons p r ih =>
      simp only [List.any_cons, Bool.or_eq_false_iff] at ha
      by_cases hp : p.1 = k <;> simp [delAttr, hp, ha.1, ih ha.2]

theorem filter_of_any_not (a : Attrs) (g : String × String → Bool)
    (ha : a.any g = false) : a.filter (fun p => !(g p)) = a := by
  induction a with
  | nil => simp
  | cons p r ih =>
      simp only [List.any_cons, Bool.or_eq_false_iff] at ha
      simp [List.filter, ha.1, ih ha.2]

theorem contains_cons (x y : String) (l : List String) :
    ((y :: l).contains x) = ((x == y) || l.contains x) := by
  cases h : x == y <;> simp [List.contains, List.elem, h]

/-! ## Tree-level lemmas

`elemPred q` predicates inspect only an element's tag and attributes, so
they are insensitive to the children rebuilding the stages perform; the
lemmas below push absence of `q`-elements through each kind of stage. -/

mutual

theorem anyN_mapN_pres (q : String → Attrs → Bool) (f : String → Attrs → Attrs)
    (hf : ∀ t a, q t a = false → q t (f t a) = false) :
    ∀ n : Node, anyN (elemPred q) n = false → anyN (elemPred q) (mapN f n) = false
  | .element t a c, h => by
      simp only [anyN, mapN, elemPred, Bool.or_eq_false_iff] at h ⊢
      exact ⟨hf t a h.1, anyD_mapD_pres q f hf c h.2⟩
  | .text _, h => h
  | .comment _, h => h

theorem anyD_mapD_pres (q : String → Attrs → Bool) (f : String → Attrs → Attrs)
    (hf : ∀ t a, q t a = false → q t (f t a) = false) :
    ∀ d : List Node, anyD (elemPred q) d = false → anyD (elemPred q) (mapD f d) = false
  | [], h => h
  | n :: r, h => by
      simp only [anyD, mapD, Bool.or_eq_false_iff] at h ⊢
      exact ⟨anyN_mapN_pres q f hf n h.1, anyD_mapD_pres q f hf r h.2⟩

end

mutual

theorem anyN_mapN_estab (q : String → Attrs → Bool) (f : String → Attrs → Attrs)
    (hf : ∀ t a, q t (f t a) = false) :
    ∀ n : Node, anyN (elemPred q) (mapN f n) = false
  | .element t a c => by
      simp only [anyN, mapN, elemPred, Bool.or_eq_false_iff]
      exact ⟨hf t a, anyD_mapD_estab q f hf c⟩
  | .text _ => rfl
  | .comment _ => rfl

theorem anyD_mapD_estab (q : String → Attrs → Bool) (f : String → Attrs → Attrs)
    (hf : ∀ t a, q t (f t a) = false) :
    ∀ d : List Node, anyD (elemPred q) (mapD f d) = false
  | [] => rfl
  | n :: r => by
      simp only [anyD, mapD, Bool.or_eq_false_iff]
      exact ⟨anyN_mapN_estab q f hf n, anyD_mapD_estab q f hf r⟩

end

mutual

theorem anyN_removeTagsN_pres (q : String → Attrs → Bool) (ts : List String) :
    ∀ (n n' : Node), removeTagsN ts n = some n' →
      anyN (elemPred q) n = false → anyN (elemPred q) n' = false
  | .element t a c, n', hrn, h => by
      cases hc : ts.contains t with
      | true => rw [removeTagsN, if_pos hc] at hrn; cases hrn
      | false =>
          have hcne : ¬(ts.contains t = true) := by rw [hc]; simp
          rw [removeTagsN, if_neg hcne] at hrn
          cases hrn
          simp only [anyN, elemPred, Bool.or_eq_false_iff] at h ⊢
          exact ⟨h.1, anyD_removeTagsD_pres q ts c h.2⟩
  | .text _, n', hrn, h => by rw [removeTagsN] at hrn; cases hrn; exact h
  | .comment _, n', hrn, h => by rw [removeTagsN] at hrn; cases hrn; exact h

theorem anyD_removeTagsD_pres (q : String → Attrs → Bool) (ts : List String) :
    ∀ d : List Node, anyD (elemPred q) d = false →
      anyD (elemPred q) (removeTagsD ts d) = false
  | [], h => h
  | n :: r, h => by
      simp only [anyD, Bool.or_eq_false_iff] at h
      rw [removeTagsD]
      cases hrn : removeTagsN ts n with
      | none => exact anyD_removeTagsD_pres q ts r h.2
      | some n' =>
          simp only [anyD, Bool.or_eq_false_iff]
          exact ⟨anyN_removeTagsN_pres q ts n n' hrn h.1, anyD_removeTagsD_pres q ts r h.2⟩

end

mutual

theorem anyN_removeTagsN_estab (q : String → Attrs → Bool) (ts : List String)
    (hq : ∀ t a, ts.contains t = false → q t a = false) :
    ∀ (n n' : Node), removeTagsN ts n = some n' → anyN (elemPred q) n' = false
  | .element t a c, n', hrn => by
      cases hc : ts.contains t with
      | true => rw [removeTagsN, if_pos hc] at hrn; cases hrn
      | false =>
          have hcne : ¬(ts.contains t = true) := by rw [hc]; simp
          rw [removeTagsN, if_neg hcne] at hrn
          cases hrn
          simp only [anyN, elemPred, Bool.or_eq_false_iff]
          exact ⟨hq t a hc, anyD_removeTagsD_estab q ts hq c⟩
  | .text _, n', hrn => by rw [removeTagsN] at hrn; cases hrn; rfl
  | .comment _, n', hrn => by rw [removeTagsN] at hrn; cases hrn; rfl

theorem anyD_removeTagsD_estab (q : String → Attrs → Bool) (ts : List String)
    (hq : ∀ t a, ts.contains t = false → q t a = false) :
    ∀ d : List Node, anyD (elemPred q) (removeTagsD ts d) = false
  | [] => rfl
  | n :: r => by
      rw [removeTagsD]
      cases hrn : removeTagsN ts n with
      | none => exact anyD_removeTagsD_estab q ts hq r
      | some n' =>
          simp only [anyD, Bool.or_eq_false_iff]
          exact ⟨anyN_removeTagsN_estab q ts hq n n' hrn, anyD_removeTagsD_estab q ts hq r⟩

end

mutual

theorem anyN_formN_pres (q : String → Attrs → Bool)
    (hf : ∀ b t a, q t a = false → q t (formUpdate b t a) = false) :
    ∀ (b : Bool) (n : Node), anyN (elemPred q) n = false →
      anyN (elemPred q) (formN b n) = false
  | b, .element t a c, h => by
      simp only [anyN, formN, elemPred, Bool.or_eq_false_iff] at h ⊢
      exact ⟨hf b t a h.1, anyD_formD_pres q hf (b || (t == "form")) c h.2⟩
  | _, .text _, h => h
  | _, .comment _, h => h

theorem anyD_formD_pres (q : String → Attrs → Bool)
    (hf : ∀ b t a, q t a = false → q t (formUpdate b t a) = false) :
    ∀ (b : Bool) (d : List Node), anyD (elemPred q) d = false →
      anyD (elemPred q) (formD b d) = false
  | _, [], h => h
  | b, n :: r, h => by
      simp only [anyD, formD, Bool.or_eq_false_iff] at h ⊢
      exact ⟨anyN_formN_pres q hf b n h.1, anyD_formD_pres q hf b r h.2⟩

end

mutual

theorem anyN_formN_estab (q : String → Attrs → Bool)
    (hf : ∀ b t a, q t (formUpdate b t a) = false) :
    ∀ (b : Bool) (n : Node), anyN (elemPred q) (formN b n) = false
  | b, .element t a c => by
      simp only [anyN, formN, elemPred, Bool.or_eq_false_iff]
      exact ⟨hf b t a, anyD_formD_estab q hf (b || (t == "form")) c⟩
  | _, .text _ => rfl
  | _, .comment _ => rfl

theorem anyD_formD_estab (q : String → Attrs → Bool)
    (hf : ∀ b t a, q t (formUpdate b t a) = false) :
    ∀ (b : Bool) (d : List Node), anyD (elemPred q) (formD b d) = false
  | _, [] => rfl
  | b, n :: r => by
      simp only [anyD, formD, Bool.or_eq_false_iff]
      exact ⟨anyN_formN_estab q hf b n, anyD_formD_estab q hf b r⟩

end

theorem anyN_noticeNode (q : String → Attrs → Bool)
    (hnot : elemPred q noticeNode = false) : anyN (elemPred q) noticeNode = false := by
  simp only [noticeNode] at hnot ⊢
  simp only [anyN, anyD, Bool.or_eq_false_iff]
  exact ⟨hnot, rfl, trivial⟩

mutual

theorem anyN_insBodyN_pres (q : String → Attrs → Bool)
    (hnot : elemPred q noticeNode = false) :
    ∀ (n n' : Node), insBodyN n = some n' →
      anyN (elemPred q) n = false → anyN (elemPred q) n' = false
  | .element t a c, n', hins, h => by
      simp only [anyN, elemPred, Bool.or_eq_false_iff] at h
      by_cases hb : (t == "body") = true
      · rw [insBodyN, if_pos hb] at hins
        cases hins
        simp only [anyN, anyD, elemPred, Bool.or_eq_false_iff]
        exact ⟨h.1, anyN_noticeNode q hnot, h.2⟩
      · rw [insBodyN, if_neg hb] at hins
        cases hic : insBodyD c with
        | none => rw [hic] at hins; cases hins
        | some c' =>
            rw [hic] at hins
            cases hins
            simp only [anyN, elemPred, Bool.or_eq_false_iff]
            exact ⟨h.1, anyD_insBodyD_pres q hnot c c' hic h.2⟩

theorem anyD_insBodyD_pres (q : String → Attrs → Bool)
    (hnot : elemPred q noticeNode = false) :
    ∀ (d d' : List Node), insBodyD d = some d' →
      anyD (elemPred q) d = false → anyD (elemPred q) d' = false
  | [], d', hins, _ => by rw [insBodyD] at hins; cases hins
  | n :: r, d', hins, h => by
      simp only [anyD, Bool.or_eq_false_iff] at h
      rw [insBodyD] at hins
      cases hin : insBodyN n with
      | some n' =>
          rw [hin] at hins
          cases hins
          simp only [anyD, Bool.or_eq_false_iff]
          exact ⟨anyN_insBodyN_pres q hnot n n' hin h.1, h.2⟩
      | none =>
          rw [hin] at hins
          cases hir : insBodyD r with
          | none => rw [hir] at hins; cases hins
          | some r' =>
              rw [hir] at hins
              cases hins
              simp only [anyD, Bool.or_eq_false_iff]
              exact ⟨h.1, anyD_insBodyD_pres q hnot r r' hir h.2⟩

end

theorem anyD_noticeStage_pres (q : String → Attrs → Bool)
    (hnot : elemPred q noticeNode = false) (d : Doc)
    (h : anyD (elemPred q) d = false) : anyD (elemPred q) (noticeStage d) = false := by
  rw [noticeStage]
  cases hins : insBodyD d with
  | some d' => exact anyD_insBodyD_pres q hnot d d' hins h
  | none =>
      simp only [anyD, Bool.or_eq_false_iff]
      exact ⟨anyN_noticeNode q hnot, h⟩

mutual

theorem mapN_id_of (q : String → Attrs → Bool) (f : String → Attrs → Attrs)
    (hf : ∀ t a, q t a = false → f t a = a) :
    ∀ n : Node, anyN (elemPred q) n = false → mapN f n = n
  | .element t a c, h => by
      simp only [anyN, elemPred, Bool.or_eq_false_iff] at h
      rw [mapN, hf t a h.1, mapD_id_of q f hf c h.2]
  | .text _, _ => rfl
  | .comment _, _ => rfl

theorem mapD_id_of (q : String → Attrs → Bool) (f : String → Attrs → Attrs)
    (hf : ∀ t a, q t a = false → f t a = a) :
    ∀ d : List Node, anyD (elemPred q) d = false → mapD f d = d
  | [], _ => rfl
  | n :: r, h => by
      simp only [anyD, Bool.or_eq_false_iff] at h
      rw [mapD, mapN_id_of q f hf n h.1, mapD_id_of q f hf r h.2]

end

mutual

theorem anyN_or (p p' : Node → Bool) :
    ∀ n : Node, anyN (fun m => p m || p' m) n = (anyN p n || anyN p' n)
  | .element t a c => by
      simp only [anyN, anyD_or p p' c]
      cases p (.element t a c) <;> cases p' (.element t a c) <;>
        cases anyD p c <;> cases anyD p' c <;> rfl
  | .text _ => rfl
  | .comment _ => rfl

theorem anyD_or (p p' : Node → Bool) :
    ∀ d : List Node, anyD (fun m => p m || p' m) d = (anyD p d || anyD p' d)
  | [] => rfl
  | n :: r => by
      simp only [anyD, anyN_or p p' n, anyD_or p p' r]
      cases anyN p n <;> cases anyN p' n <;> cases anyD p r <;> cases anyD p' r <;> rfl

end

/-! ## Safety predicates on elements

Each predicate recognizes one kind of unsafe element the claims talk about;
the invariants below show `sanitize_html_` leaves no element satisfying
them. -/

/-- An element whose tag name is in `ts`. -/
def qTagIn (ts : List String) (t : String) (_ : Attrs) : Bool :=
  ts.contains t

/-- An element carrying attribute `k`. -/
def qHasAttr (k : String) (_ : String) (a : Attrs) : Bool :=
  hasAttr a k

/-- An element with an attribute whose name case-insensitively starts with
`on`. -/
def qAnyOnLower (_ : String) (a : Attrs) : Bool :=
  a.any (fun p => pyStartsWith (pyLower p.1) "on")

/-- An element whose `href` starts with none of `#`, `mailto:`, `javascript:`. -/
def qHrefNotExempt (_ : String) (a : Attrs) : Bool :=
  match getAttr a "href" with
  | some v => !(hrefExempt v)
  | none => false

/-- An `img` element with an attribute whose name starts with `on`
(case-sensitively, as tested by the img loop at line 134). -/
def qImgOnPlain (t : String) (a : Attrs) : Bool :=
  t == "img" && a.any (fun p => pyStartsWith p.1 "on")

/-- A `form` element not yet forced to `action="#"` and `method="get"`. -/
def qFormLive (t : String) (a : Attrs) : Bool :=
  t == "form" && !((getAttr a "action" == some "#") && (getAttr a "method" == some "get"))

/-! ## Side conditions: the stage bodies respect the safety predicates -/

theorem qAnyOnLower_formUpdate (b : Bool) (t : String) (a : Attrs)
    (h : qAnyOnLower t a = false) : qAnyOnLower t (formUpdate b t a) = false := by
  rw [formUpdate]
  split
  · exact any_setAttr _ _ _ _ (any_setAttr _ _ _ _ h (by decide)) (by decide)
  · split
    · exact any_setAttr _ _ _ _ h (by decide)
    · split
      · exact any_setAttr _ _ _ _ h (by decide)
      · exact h

theorem getAttr_formUpdate_ne (b : Bool) (t : String) (a : Attrs) (k : String)
    (h1 : k ≠ "action") (h2 : k ≠ "method") (h3 : k ≠ "disabled") :
    getAttr (formUpdate b t a) k = getAttr a k := by
  rw [formUpdate]
  split
  · rw [getAttr_setAttr_ne _ _ _ _ h2, getAttr_setAttr_ne _ _ _ _ h1]
  · split
    · exact getAttr_setAttr_ne _ _ _ _ h3
    · split
      · exact getAttr_setAttr_ne _ _ _ _ h3
      · rfl

theorem getAttr_hrefFix_ne (a : Attrs) (k : String) (h : k ≠ "href") :
    getAttr (hrefFix a) k = getAttr a k := by
  rw [hrefFix]
  cases hv : getAttr a "href" with
  | none => rfl
  | some v =>
      cases hex : hrefExempt v with
      | true => simp [hex]
      | false => simp [hex, getAttr_setAttr_ne _ _ _ _ h]

theorem any_hrefFix (a : Attrs) (g : String × String → Bool)
    (ha : a.any g = false) (hkv : g ("href", "#") = false) :
    (hrefFix a).any g = false := by
  rw [hrefFix]
  cases hv : getAttr a "href" with
  | none => exact ha
  | some v =>
      cases hex : hrefExempt v with
      | true => simpa [hex] using ha
      | false => simpa [hex] using any_setAttr _ _ _ _ ha hkv

theorem hasAttr_eq_false_iff (a : Attrs) (k : String) :
    hasAttr a k = false ↔ getAttr a k = none := by
  rw [hasAttr]
  cases getAttr a k <;> simp

/-! ## Invariants of the strict sanitizer's output -/

/-- No element of `sanitize_html_`'s output has an attribute whose lowercased
name starts with `on` (established by the loop at lines 153-157, preserved
by form neutralization, tag removal and the notice). -/
theorem inv_noOnLower (d : Doc) :
    anyD (elemPred qAnyOnLower) (sanitize_html_ d) = false := by
  simp only [sanitize_html_]
  apply anyD_noticeStage_pres _ (by decide)
  rw [commentStage]
  apply anyD_removeTagsD_pres
  apply anyD_formD_pres _ qAnyOnLower_formUpdate
  rw [onStage]
  apply anyD_mapD_estab
  intro t a
  exact any_filter_not a _

/-- No element of `sanitize_html_`'s output carries a `src` attribute
(established by the loop at lines 148-150). -/
theorem inv_noSrc (d : Doc) :
    anyD (elemPred (qHasAttr "src")) (sanitize_html_ d) = false := by
  simp only [sanitize_html_]
  apply anyD_noticeStage_pres _ (by decide)
  rw [commentStage]
  apply anyD_removeTagsD_pres
  apply anyD_formD_pres
  · intro b t a h
    simp only [qHasAttr, hasAttr_eq_false_iff] at h ⊢
    rw [getAttr_formUpdate_ne _ _ _ _ (by decide) (by decide) (by decide)]
    exact h
  rw [onStage]
  apply anyD_mapD_pres _ _ ?_ _ ?_
  · intro t a h
    simp only [qHasAttr, hasAttr_eq_false_iff] at h ⊢
    exact getAttr_filter_none a _ _ h
  rw [srcStage]
  apply anyD_mapD_estab
  intro t a
  simp only [qHasAttr, hasAttr_eq_false_iff, getAttr_delAttr_self]

/-- No element of `sanitize_html_`'s output carries a `srcset` attribute
(established by the loop at lines 121-122). -/
theorem inv_noSrcset (d : Doc) :
    anyD (elemPred (qHasAttr "srcset")) (sanitize_html_ d) = false := by
  simp only [sanitize_html_]
  apply anyD_noticeStage_pres _ (by decide)
  rw [commentStage]
  apply anyD_removeTagsD_pres
  apply anyD_formD_pres
  · intro b t a h
    simp only [qHasAttr, hasAttr_eq_false_iff] at h ⊢
    rw [getAttr_formUpdate_ne _ _ _ _ (by decide) (by decide) (by decide)]
    exact h
  rw [onStage]
  apply anyD_mapD_pres _ _ ?_ _ ?_
  · intro t a h
    simp only [qHasAttr, hasAttr_eq_false_iff] at h ⊢
    exact getAttr_filter_none a _ _ h
  rw [srcStage]
  apply anyD_mapD_pres _ _ ?_ _ ?_
  · intro t a h
    simp only [qHasAttr, hasAttr_eq_false_iff] at h ⊢
    rw [getAttr_delAttr_ne _ _ _ (by decide)]
    exact h
  rw [hrefStage]
  apply anyD_mapD_pres _ _ ?_ _ ?_
  · intro t a h
    simp only [qHasAttr, hasAttr_eq_false_iff] at h ⊢
    rw [getAttr_hrefFix_ne _ _ (by decide)]
    exact h
  rw [imgStage]
  apply anyD_mapD_pres _ _ ?_ _ ?_
  · intro t a h
    simp only [qHasAttr, hasAttr_eq_false_iff] at h ⊢
    unfold imgAttrsF
    split
    · exact getAttr_filter_none _ _ _ (getAttr_delAttr_self _ _)
    · exact h
  rw [srcsetStage]
  apply anyD_mapD_estab
  intro t a
  simp only [qHasAttr, hasAttr_eq_false_iff, getAttr_delAttr_self]

theorem qTagIn_indep (ts : List String) (f : String → Attrs → Attrs) :
    ∀ t a, qTagIn ts t a = false → qTagIn ts t (f t a) = false :=
  fun _ _ h => h

theorem qTagIn_formUpdate (ts : List String) :
    ∀ (b : Bool) (t : String) (a : Attrs),
      qTagIn ts t a = false → qTagIn ts t (formUpdate b t a) = false :=
  fun _ _ _ h => h

theorem qTagIn_self (ts : List String) :
    ∀ (t : String) (a : Attrs), ts.contains t = false → qTagIn ts t a = false :=
  fun _ _ h => h

theorem href_name_not_on : (!(pyStartsWith (pyLower "href") "on")) = true := by decide

theorem qHrefNotExempt_hrefFix (t : String) (a : Attrs) :
    qHrefNotExempt t (hrefFix a) = false := by
  rw [hrefFix]
  cases hv : getAttr a "href" with
  | none => simp [qHrefNotExempt, hv]
  | some v =>
      cases hex : hrefExempt v with
      | true => simp [qHrefNotExempt, hv, hex]
      | false =>
          simp only [hex, Bool.false_eq_true, if_false, qHrefNotExempt, getAttr_setAttr_self]
          decide

/-- Every `href` left in `sanitize_html_`'s output starts with `#`,
`mailto:` or `javascript:` (established by the loop at lines 138-145; the
replacement value `#` itself satisfies the exemption). -/
theorem inv_noHrefBad (d : Doc) :
    anyD (elemPred qHrefNotExempt) (sanitize_html_ d) = false := by
  simp only [sanitize_html_]
  apply anyD_noticeStage_pres _ (by decide)
  rw [commentStage]
  apply anyD_removeTagsD_pres
  apply anyD_formD_pres
  · intro b t a h
    simp only [qHrefNotExempt] at h ⊢
    rw [getAttr_formUpdate_ne _ _ _ _ (by decide) (by decide) (by decide)]
    exact h
  rw [onStage]
  apply anyD_mapD_pres _ _ ?_ _ ?_
  · intro t a h
    simp only [qHrefNotExempt] at h ⊢
    rw [getAttr_filter_keep a "href"
      (fun p => !(pyStartsWith (pyLower p.1) "on")) (fun _ => href_name_not_on)]
    exact h
  rw [srcStage]
  apply anyD_mapD_pres _ _ ?_ _ ?_
  · intro t a h
    simp only [qHrefNotExempt] at h ⊢
    rw [getAttr_delAttr_ne _ _ _ (by decide)]
    exact h
  rw [hrefStage]
  apply anyD_mapD_estab
  intro t a
  exact qHrefNotExempt_hrefFix t a

theorem qImgOnPlain_formUpdate (b : Bool) (t : String) (a : Attrs)
    (h : qImgOnPlain t a = false) : qImgOnPlain t (formUpdate b t a) = false := by
  cases himg : (t == "img") with
  | false => simp [qImgOnPlain, himg]
  | true =>
      have ht : t = "img" := by simpa using himg
      subst ht
      simpa [formUpdate, qImgOnPlain] using h

/-- No `img` element of `sanitize_html_`'s output has an attribute whose
name starts with `on` case-sensitively (established by the img loop,
preserved by the later stages). -/
theorem inv_noImgOnPlain (d : Doc) :
    anyD (elemPred qImgOnPlain) (sanitize_html_ d) = false := by
  simp only [sanitize_html_]
  apply anyD_noticeStage_pres _ (by decide)
  rw [commentStage]
  apply anyD_removeTagsD_pres
  apply anyD_formD_pres _ qImgOnPlain_formUpdate
  rw [onStage]
  apply anyD_mapD_pres _ _ ?_ _ ?_
  · intro t a h
    cases himg : (t == "img") with
    | false => simp [qImgOnPlain, himg]
    | true =>
        simp only [qImgOnPlain, himg, Bool.true_and] at h ⊢
        exact any_filter_le a _ _ h
  rw [srcStage]
  apply anyD_mapD_pres _ _ ?_ _ ?_
  · intro t a h
    cases himg : (t == "img") with
    | false => simp [qImgOnPlain, himg]
    | true =>
        simp only [qImgOnPlain, himg, Bool.true_and] at h ⊢
        exact any_delAttr a _ _ h
  rw [hrefStage]
  apply anyD_mapD_pres _ _ ?_ _ ?_
  · intro t a h
    cases himg : (t == "img") with
    | false => simp [qImgOnPlain, himg]
    | true =>
        simp only [qImgOnPlain, himg, Bool.true_and] at h ⊢
        exact any_hrefFix a _ h (by decide)
  rw [imgStage]
  apply anyD_mapD_estab
  intro t a
  cases himg : (t == "img") with
  | false => simp [qImgOnPlain, imgAttrsF, himg]
  | true =>
      simp only [qImgOnPlain, imgAttrsF, himg, if_true, Bool.true_and]
      exact any_filter_not _ _

theorem qFormLive_formUpdate (b : Bool) (t : String) (a : Attrs) :
    qFormLive t (formUpdate b t a) = false := by
  cases hform : (t == "form") with
  | false => simp [qFormLive, hform]
  | true =>
      have ht : t = "form" := by simpa using hform
      subst ht
      simp [qFormLive, formUpdate, getAttr_setAttr_self,
        getAttr_setAttr_ne _ _ _ _ (by decide : ("action" : String) ≠ "method")]

/-- Every `form` element of `sanitize_html_`'s output has `action="#"` and
`method="get"` (established by the form loop at lines 160-168). -/
theorem inv_formNeutralized (d : Doc) :
    anyD (elemPred qFormLive) (sanitize_html_ d) = false := by
  simp only [sanitize_html_]
  apply anyD_noticeStage_pres _ (by decide)
  rw [commentStage]
  apply anyD_removeTagsD_pres
  exact anyD_formD_estab _ qFormLive_formUpdate false _

/-- No element with a tag from the first removal group survives. -/
theorem inv_noDangerous (d : Doc) :
    anyD (elemPred (qTagIn dangerousTags)) (sanitize_html_ d) = false := by
  simp only [sanitize_html_]
  apply anyD_noticeStage_pres _ (by decide)
  rw [commentStage]
  apply anyD_removeTagsD_pres
  apply anyD_formD_pres _ (qTagIn_formUpdate _)
  rw [onStage]
  apply anyD_mapD_pres _ _ (qTagIn_indep _ _)
  rw [srcStage]
  apply anyD_mapD_pres _ _ (qTagIn_indep _ _)
  rw [hrefStage]
  apply anyD_mapD_pres _ _ (qTagIn_indep _ _)
  rw [imgStage]
  apply anyD_mapD_pres _ _ (qTagIn_indep _ _)
  rw [srcsetStage]
  apply anyD_mapD_pres _ _ (qTagIn_indep _ _)
  apply anyD_removeTagsD_pres
  apply anyD_removeTagsD_pres
  exact anyD_removeTagsD_estab _ _ (qTagIn_self _) d

/-- No `link` element survives (removed at line 109). -/
theorem inv_noLink (d : Doc) :
    anyD (elemPred (qTagIn ["link"])) (sanitize_html_ d) = false := by
  simp only [sanitize_html_]
  apply anyD_noticeStage_pres _ (by decide)
  rw [commentStage]
  apply anyD_removeTagsD_pres
  apply anyD_formD_pres _ (qTagIn_formUpdate _)
  rw [onStage]
  apply anyD_mapD_pres _ _ (qTagIn_indep _ _)
  rw [srcStage]
  apply anyD_mapD_pres _ _ (qTagIn_indep _ _)
  rw [hrefStage]
  apply anyD_mapD_pres _ _ (qTagIn_indep _ _)
  rw [imgStage]
  apply anyD_mapD_pres _ _ (qTagIn_indep _ _)
  rw [srcsetStage]
  apply anyD_mapD_pres _ _ (qTagIn_indep _ _)
  apply anyD_removeTagsD_pres
  exact anyD_removeTagsD_estab _ _ (qTagIn_self _) _

/-- No `meta` element survives (removed at lines 111-118). -/
theorem inv_noMeta (d : Doc) :
    anyD (elemPred (qTagIn ["meta"])) (sanitize_html_ d) = false := by
  simp only [sanitize_html_]
  apply anyD_noticeStage_pres _ (by decide)
  rw [commentStage]
  apply anyD_removeTagsD_pres
  apply anyD_formD_pres _ (qTagIn_formUpdate _)
  rw [onStage]
  apply anyD_mapD_pres _ _ (qTagIn_indep _ _)
  rw [srcStage]
  apply anyD_mapD_pres _ _ (qTagIn_indep _ _)
  rw [hrefStage]
  apply anyD_mapD_pres _ _ (qTagIn_indep _ _)
  rw [imgStage]
  apply anyD_mapD_pres _ _ (qTagIn_indep _ _)
  rw [srcsetStage]
  apply anyD_mapD_pres _ _ (qTagIn_indep _ _)
  exact anyD_removeTagsD_estab _ _ (qTagIn_self _) _

/-- No `video`, `audio`, `source` or `track` element survives (removed at
lines 176-178, after which only comment stripping and the notice run). -/
theorem inv_noMedia (d : Doc) :
    anyD (elemPred (qTagIn mediaTags)) (sanitize_html_ d) = false := by
  simp only [sanitize_html_]
  apply anyD_noticeStage_pres _ (by decide)
  rw [commentStage]
  exact anyD_removeTagsD_estab _ _ (qTagIn_self _) _

theorem contains_nil (x : String) : ([] : List String).contains x = false := rfl

theorem removedTags_split (t : String) :
    removedTags.contains t =
      (dangerousTags.contains t ||
        (["link"].contains t || (["meta"].contains t || mediaTags.contains t))) := by
  simp [removedTags, dangerousTags, mediaTags, contains_cons, contains_nil, Bool.or_assoc]

theorem elemPred_removedTags (n : Node) :
    elemPred (qTagIn removedTags) n =
      (elemPred (qTagIn dangerousTags) n ||
        (elemPred (qTagIn ["link"]) n ||
          (elemPred (qTagIn ["meta"]) n || elemPred (qTagIn mediaTags) n))) := by
  cases n with
  | element t a c =>
      simp only [elemPred, qTagIn]
      exact removedTags_split t
  | text s => rfl
  | comment s => rfl

/-- None of the twelve eliminated tags appears in `sanitize_html_`'s output. -/
theorem inv_noRemovedTags (d : Doc) :
    anyD (elemPred (qTagIn removedTags)) (sanitize_html_ d) = false := by
  have hfun : elemPred (qTagIn removedTags) = fun n =>
      (elemPred (qTagIn dangerousTags) n ||
        (elemPred (qTagIn ["link"]) n ||
          (elemPred (qTagIn ["meta"]) n || elemPred (qTagIn mediaTags) n))) :=
    funext elemPred_removedTags
  rw [hfun,
    anyD_or (elemPred (qTagIn dangerousTags))
      (fun n => elemPred (qTagIn ["link"]) n ||
        (elemPred (qTagIn ["meta"]) n || elemPred (qTagIn mediaTags) n)),
    anyD_or (elemPred (qTagIn ["link"]))
      (fun n => elemPred (qTagIn ["meta"]) n || elemPred (qTagIn mediaTags) n),
    anyD_or (elemPred (qTagIn ["meta"])) (elemPred (qTagIn mediaTags)),
    inv_noDangerous d, inv_noLink d, inv_noMeta d, inv_noMedia d]
  rfl

/-! ## The notice is always present, and serialization is non-empty -/

theorem anyN_noticeNode_true : anyN isNotice noticeNode = true := by decide

mutual

theorem anyN_insBodyN_notice :
    ∀ (n n' : Node), insBodyN n = some n' → anyN isNotice n' = true
  | .element t a c, n', hins => by
      by_cases hb : (t == "body") = true
      · rw [insBodyN, if_pos hb] at hins
        cases hins
        rw [anyN, anyD, anyN_noticeNode_true]
        simp
      · rw [insBodyN, if_neg hb] at hins
        cases hic : insBodyD c with
        | none => rw [hic] at hins; cases hins
        | some c' =>
            rw [hic] at hins
            cases hins
            simp only [anyN, anyD_insBodyD_notice c c' hic, Bool.or_true]
  | .text _, n', hins => by rw [insBodyN] at hins; cases hins
  | .comment _, n', hins => by rw [insBodyN] at hins; cases hins

theorem anyD_insBodyD_notice :
    ∀ (d d' : List Node), insBodyD d = some d' → anyD isNotice d' = true
  | [], d', hins => by rw [insBodyD] at hins; cases hins
  | n :: r, d', hins => by
      rw [insBodyD] at hins
      cases hin : insBodyN n with
      | some n' =>
          rw [hin] at hins
          cases hins
          simp only [anyD, anyN_insBodyN_notice n n' hin, Bool.true_or]
      | none =>
          rw [hin] at hins
          cases hir : insBodyD r with
          | none => rw [hir] at hins; cases hins
          | some r' =>
              rw [hir] at hins
              cases hins
              simp only [anyD, anyD_insBodyD_notice r r' hir, Bool.or_true]

end

/-- The notice element is present in the output of the notice stage. -/
theorem anyD_noticeStage_notice (d : Doc) : anyD isNotice (noticeStage d) = true := by
  rw [noticeStage]
  cases hins : insBodyD d with
  | some d' => exact anyD_insBodyD_notice d d' hins
  | none => simp only [anyD, anyN_noticeNode_true, Bool.true_or]

theorem serializeN_elem_length (t : String) (a : Attrs) (c : List Node) :
    0 < (serializeN (Node.element t a c)).length := by
  rw [serializeN]
  simp only [String.length_append]
  have h1 : ("<" : String).length = 1 := rfl
  omega

theorem anyN_isNotice_length :
    ∀ n : Node, anyN isNotice n = true → 0 < (serializeN n).length
  | .element t a c, _ => serializeN_elem_length t a c
  | .text s, h => by simp [anyN, isNotice] at h
  | .comment s, h => by simp [anyN, isNotice] at h

theorem anyD_isNotice_length :
    ∀ d : List Node, anyD isNotice d = true → 0 < (serializeD d).length
  | [], h => by cases h
  | n :: r, h => by
      rw [anyD] at h
      rw [serializeD, String.length_append]
      rcases (Bool.or_eq_true _ _) ▸ h with h1 | h2
      · have := anyN_isNotice_length n h1
        omega
      · have := anyD_isNotice_length r h2
        omega

/-! ## Second-pass identity lemmas (for the idempotence claim) -/

theorem hrefFix_id (t : String) (a : Attrs) (h : qHrefNotExempt t a = false) :
    hrefFix a = a := by
  rw [hrefFix]
  cases hv : getAttr a "href" with
  | none => rfl
  | some v =>
      simp only [qHrefNotExempt, hv] at h
      have h' : hrefExempt v = true := by
        cases hex : hrefExempt v
        · simp [hex] at h
        · rfl
      show (if hrefExempt v = true then a else setAttr a "href" "#") = a
      exact if_pos h'

/-- The element predicate distributes over disjunction of tag-attribute
predicates. -/
theorem elemPred_or (q q' : String → Attrs → Bool) (n : Node) :
    elemPred (fun t a => q t a || q' t a) n = (elemPred q n || elemPred q' n) := by
  cases n <;> rfl

/-- An `img` element that still carries `src`, `srcset` or a plain
`on`-prefixed attribute (the attributes the img loop would touch). -/
def qImgTouch (t : String) (a : Attrs) : Bool :=
  qImgOnPlain t a || (qHasAttr "src" t a || qHasAttr "srcset" t a)

theorem inv_imgTouch (d : Doc) :
    anyD (elemPred qImgTouch) (sanitize_html_ d) = false := by
  have hfun : elemPred qImgTouch = fun n =>
      (elemPred qImgOnPlain n ||
        (elemPred (qHasAttr "src") n || elemPred (qHasAttr "srcset") n)) := by
    funext n
    rw [show qImgTouch = fun t a => qImgOnPlain t a || (fun t a => qHasAttr "src" t a || qHasAttr "srcset" t a) t a from rfl]
    rw [elemPred_or qImgOnPlain _ n, elemPred_or (qHasAttr "src") (qHasAttr "srcset") n]
  rw [hfun,
    anyD_or (elemPred qImgOnPlain)
      (fun n => elemPred (qHasAttr "src") n || elemPred (qHasAttr "srcset") n),
    anyD_or (elemPred (qHasAttr "src")) (elemPred (qHasAttr "srcset")),
    inv_noImgOnPlain d, inv_noSrc d, inv_noSrcset d]
  rfl

theorem imgAttrsF_id (t : String) (a : Attrs) (h : qImgTouch t a = false) :
    imgAttrsF t a = a := by
  cases himg : (t == "img") with
  | false => simp [imgAttrsF, himg]
  | true =>
      simp only [qImgTouch, qImgOnPlain, qHasAttr, himg, Bool.true_and,
        Bool.or_eq_false_iff, hasAttr_eq_false_iff] at h
      rw [imgAttrsF, if_pos himg,
        delAttr_of_getAttr_none a _ h.2.1,
        delAttr_of_getAttr_none a _ h.2.2,
        filter_of_any_not a _ h.1]

/-! ## Frame relation for the light sanitizer -/

/-- `b` agrees with `a` on every attribute key outside `ks` (same value, or
absent in both). -/
def attrsAgreeExcept (ks : List String) (a b : Attrs) : Prop :=
  ∀ k : String, ks.contains k = false → getAttr b k = getAttr a k

mutual

/-- The frame relation of `sanitize_html`: the output node has the same
shape, tags, text and comments as the input; an `a` element may differ only
in `href`, an `img` element only in `src` and `alt`, and every other
element keeps its attribute list exactly. -/
def frameN : Node → Node → Prop
  | .element t a c, m =>
      match m with
      | .element t' a' c' =>
          t' = t ∧ frameD c c' ∧
            (if t = "a" then attrsAgreeExcept ["href"] a a'
             else if t = "img" then attrsAgreeExcept ["src", "alt"] a a'
             else a' = a)
      | _ => False
  | .text s, m => m = .text s
  | .comment s, m => m = .comment s

/-- `frameN` between two node lists, position by position. -/
def frameD : List Node → List Node → Prop
  | [], m => m = []
  | n :: r, m =>
      match m with
      | [] => False
      | n' :: r' => frameN n n' ∧ frameD r r'

end

theorem contains_singleton_false (x y : String) (h : (y :: ([] : List String)).contains x = false) :
    x ≠ y := by
  rw [contains_cons, contains_nil] at h
  simp only [Bool.or_false] at h
  simpa using h

theorem agree_aHrefRewrite (t : String) (a : Attrs) :
    attrsAgreeExcept ["href"] a (aHrefRewrite t a) := by
  intro k hk
  have hk' : k ≠ "href" := contains_singleton_false _ _ hk
  cases hta : (t == "a") with
  | false => simp [aHrefRewrite, hta]
  | true =>
      simp only [aHrefRewrite, hta, if_true]
      cases hv : getAttr a "href" with
      | none => rfl
      | some v =>
          cases hps : pyStartsWith v "#" with
          | true => simp [hps]
          | false => simp [hps, getAttr_setAttr_ne _ _ _ _ hk']

theorem agree_imgSrcRewrite (t : String) (a : Attrs) :
    attrsAgreeExcept ["src", "alt"] a (imgSrcRewrite t a) := by
  intro k hk
  rw [contains_cons, contains_cons, contains_nil] at hk
  simp only [Bool.or_false, Bool.or_eq_false_iff] at hk
  have hks : k ≠ "src" := by simpa using hk.1
  have hka : k ≠ "alt" := by simpa using hk.2
  cases hti : (t == "img") with
  | false => simp [imgSrcRewrite, hti]
  | true =>
      simp only [imgSrcRewrite, hti, if_true]
      cases hv : getAttr a "src" with
      | none => rfl
      | some v =>
          cases halt : ((getAttr (setAttr a "src" ("https://noice://" ++ v)) "alt").getD "" == "") with
          | true =>
              simp only [halt, if_true]
              rw [getAttr_setAttr_ne _ _ _ _ hka, getAttr_setAttr_ne _ _ _ _ hks]
          | false =>
              simp only [halt, Bool.false_eq_true, if_false]
              rw [getAttr_setAttr_ne _ _ _ _ hks]

mutual

theorem frameN_sanitize : ∀ n : Node, frameN n (mapN imgSrcRewrite (mapN aHrefRewrite n))
  | .element t a c => by
      rw [mapN, mapN]
      refine ⟨rfl, frameD_sanitize c, ?_⟩
      by_cases hta : t = "a"
      · rw [if_pos hta]
        subst hta
        exact agree_aHrefRewrite "a" a
      · by_cases hti : t = "img"
        · rw [if_neg hta, if_pos hti]
          subst hti
          exact agree_imgSrcRewrite "img" a
        · rw [if_neg hta, if_neg hti]
          simp [aHrefRewrite, imgSrcRewrite, hta, hti]
  | .text s => rfl
  | .comment s => rfl

theorem frameD_sanitize : ∀ d : List Node, frameD d (mapD imgSrcRewrite (mapD aHrefRewrite d))
  | [] => rfl
  | n :: r => ⟨frameN_sanitize n, frameD_sanitize r⟩

end

/-! ## Claim theorems -/

/-- C1, counterexample: the sanitize operation used by the pipeline is
`sanitize_html` (line 298), and on the input tree `<script>alert(1)</script>`
its output still contains a `script` element, so the claim "the HTML
produced by the sanitize operation used by the pipeline contains no script,
iframe, ... elements" is false as stated: `sanitize_html` removes no
elements at all. -/
theorem c1_counterexample_pipeline_keeps_script :
    sanitize_html [Node.element "script" [] [Node.text "alert(1)"]] =
      [Node.element "script" [] [Node.text "alert(1)"]] ∧
    anyD (elemPred (qTagIn removedTags))
      (sanitize_html [Node.element "script" [] [Node.text "alert(1)"]]) = true :=
  ⟨rfl, rfl⟩

/-- C1, amended: for every input tree, the output of the strict sanitizer
`sanitize_html_` (which the pipeline does not call) contains no `script`,
`iframe`, `object`, `embed`, `noscript`, `base`, `link`, `meta`, `video`,
`audio`, `source` or `track` element. -/
theorem c1_strict_sanitizer_removes_tags (d : Doc) :
    anyD (elemPred (qTagIn removedTags)) (sanitize_html_ d) = false :=
  inv_noRemovedTags d

/-- C2: for every input tree, no element of the sanitizer engine
`sanitize_html_`'s output carries an attribute whose name case-insensitively
starts with `on` (the stripping loop at lines 152-157; the attributes the
later form stage adds — `action`, `method`, `disabled` — and the notice's
`style` do not start with `on`). -/
theorem c2_no_on_attributes (d : Doc) :
    anyD (elemPred qAnyOnLower) (sanitize_html_ d) = false :=
  inv_noOnLower d

/-- C3: in the collapse-to-`#` sanitizer `sanitize_html_`, for every element
with an `href` attribute: the href loop maps the element to the same element
with `hrefFix` applied to its attributes; if the value starts with `#`,
`mailto:` or `javascript:` the attribute list is left unchanged, and
otherwise `href` becomes exactly `#` while every other attribute keeps its
value. -/
theorem c3_href_neutralization (t : String) (a : Attrs) (c : List Node) (v : String)
    (hv : getAttr a "href" = some v) :
    (hrefStage [Node.element t a c] = [Node.element t (hrefFix a) (hrefStage c)]) ∧
    (hrefExempt v = true → hrefFix a = a) ∧
    (hrefExempt v = false →
      getAttr (hrefFix a) "href" = some "#" ∧
      ∀ k, k ≠ "href" → getAttr (hrefFix a) k = getAttr a k) := by
  refine ⟨rfl, ?_, ?_⟩
  · intro hex
    rw [hrefFix, hv]
    show (if hrefExempt v = true then a else setAttr a "href" "#") = a
    exact if_pos hex
  · intro hex
    have hset : hrefFix a = setAttr a "href" "#" := by
      rw [hrefFix, hv]
      show (if hrefExempt v = true then a else setAttr a "href" "#") = setAttr a "href" "#"
      exact if_neg (by simp [hex])
    rw [hset]
    exact ⟨getAttr_setAttr_self a _ _, fun k hk => getAttr_setAttr_ne a _ _ k hk⟩

/-- Witness for C3 at concrete inputs: an external URL collapses to `#`, a
`mailto:` link is left untouched. -/
theorem c3_href_neutralization_witness :
    getAttr (hrefFix [("href", "http://evil.test/x")]) "href" = some "#" ∧
    hrefFix [("href", "mailto:bob@example.org")] = [("href", "mailto:bob@example.org")] :=
  ⟨((c3_href_neutralization "a" [("href", "http://evil.test/x")] []
      "http://evil.test/x" (by decide)).2.2 (by decide)).1,
   (c3_href_neutralization "a" [("href", "mailto:bob@example.org")] []
      "mailto:bob@example.org" (by decide)).2.1 (by decide)⟩

/-- An `img` element that has a `src` but whose `alt` is missing or empty
(Python falsiness of `img.get("alt")`). -/
def qImgSrcNoAlt (t : String) (a : Attrs) : Bool :=
  t == "img" && hasAttr a "src" && ((getAttr a "alt").getD "" == "")

/-- C4, counterexample: the claim says an `img` lacking `alt` is given the
placeholder "in both neutralization policy modes", but in the collapse mode
(`sanitize_html_`) the image `<img src="http://evil.test/x.png">` comes out
as a bare `<img>` with no `alt` attribute at all: only `sanitize_html` sets
the placeholder. -/
theorem c4_counterexample_strict_mode_drops_alt :
    sanitize_html_ [Node.element "img" [("src", "http://evil.test/x.png")] []] =
      [noticeNode, Node.element "img" [] []] ∧
    anyD (elemPred (fun t a => t == "img" && !(hasAttr a "alt")))
      (sanitize_html_ [Node.element "img" [("src", "http://evil.test/x.png")] []]) = true :=
  ⟨rfl, rfl⟩

/-- C4, amended: only in the inert-scheme-prefix mode (`sanitize_html`):
(1) the img loop body, applied to an `img` carrying a `src` whose `alt` is
missing or empty (Python falsiness of `img.get("alt")`), sets `alt` to
exactly the fixed placeholder `[image disabled]` (and `src` to the
inert-prefixed original); (2) an `img` element without a `src` is not
visited by the loop at all, so it receives no `alt`; (3) hence no `img`
with a `src` is left with a missing or empty `alt` anywhere in
`sanitize_html`'s output; (4) the collapse mode `sanitize_html_` never sets
`alt`: a tree in which no element carries an `alt` attribute sanitizes to a
tree in which still no element carries one. -/
theorem c4_light_sanitizer_sets_alt :
    (∀ (a : Attrs) (v : String), getAttr a "src" = some v →
      (getAttr a "alt").getD "" = "" →
      getAttr (imgSrcRewrite "img" a) "alt" = some "[image disabled]" ∧
      getAttr (imgSrcRewrite "img" a) "src" = some ("https://noice://" ++ v)) ∧
    (∀ (t : String) (a : Attrs), getAttr a "src" = none → imgSrcRewrite t a = a) ∧
    (∀ d : Doc, anyD (elemPred qImgSrcNoAlt) (sanitize_html d) = false) ∧
    (∀ d : Doc, anyD (elemPred (qHasAttr "alt")) d = false →
      anyD (elemPred (qHasAttr "alt")) (sanitize_html_ d) = false) := by
  refine ⟨?_, ?_, ?_, ?_⟩
  · intro a v hv halt
    have hcond : ((getAttr (setAttr a "src" ("https://noice://" ++ v)) "alt").getD "" == "") = true := by
      rw [getAttr_setAttr_ne a _ _ _ (by decide : ("alt" : String) ≠ "src"), halt]
      rfl
    have heq : imgSrcRewrite "img" a =
        setAttr (setAttr a "src" ("https://noice://" ++ v)) "alt" "[image disabled]" := by
      simp only [imgSrcRewrite, show (("img" : String) == "img") = true from by decide,
        if_true, hv, hcond]
    rw [heq]
    refine ⟨getAttr_setAttr_self _ _ _, ?_⟩
    rw [getAttr_setAttr_ne _ _ _ _ (by decide : ("src" : String) ≠ "alt")]
    exact getAttr_setAttr_self _ _ _
  · intro t a hv
    cases ht : (t == "img") with
    | false => simp [imgSrcRewrite, ht]
    | true => simp [imgSrcRewrite, ht, hv]
  · intro d
    rw [sanitize_html]
    apply anyD_mapD_estab
    intro t a
    cases himg : (t == "img") with
    | false => simp [qImgSrcNoAlt, imgSrcRewrite, himg]
    | true =>
        simp only [imgSrcRewrite, himg, if_true]
        cases hv : getAttr a "src" with
        | none => simp [qImgSrcNoAlt, hasAttr, hv]
        | some v =>
            cases halt : ((getAttr (setAttr a "src" ("https://noice://" ++ v)) "alt").getD "" == "") with
            | true =>
                simp only [halt, if_true]
                simp [qImgSrcNoAlt, getAttr_setAttr_self,
                  getAttr_setAttr_ne _ _ _ _ (by decide : ("alt" : String) ≠ "src")]
            | false =>
                simp only [halt, Bool.false_eq_true, if_false]
                simp [qImgSrcNoAlt, halt]
  · intro d h
    simp only [sanitize_html_]
    apply anyD_noticeStage_pres _ (by decide)
    rw [commentStage]
    apply anyD_removeTagsD_pres
    apply anyD_formD_pres
    · intro b t a ha
      simp only [qHasAttr, hasAttr_eq_false_iff] at ha ⊢
      rw [getAttr_formUpdate_ne _ _ _ _ (by decide) (by decide) (by decide)]
      exact ha
    rw [onStage]
    apply anyD_mapD_pres _ _ ?_ _ ?_
    · intro t a ha
      simp only [qHasAttr, hasAttr_eq_false_iff] at ha ⊢
      exact getAttr_filter_none a _ _ ha
    rw [srcStage]
    apply anyD_mapD_pres _ _ ?_ _ ?_
    · intro t a ha
      simp only [qHasAttr, hasAttr_eq_false_iff] at ha ⊢
      rw [getAttr_delAttr_ne _ _ _ (by decide : ("alt" : String) ≠ "src")]
      exact ha
    rw [hrefStage]
    apply anyD_mapD_pres _ _ ?_ _ ?_
    · intro t a ha
      simp only [qHasAttr, hasAttr_eq_false_iff] at ha ⊢
      rw [getAttr_hrefFix_ne _ _ (by decide : ("alt" : String) ≠ "href")]
      exact ha
    rw [imgStage]
    apply anyD_mapD_pres _ _ ?_ _ ?_
    · intro t a ha
      simp only [qHasAttr, hasAttr_eq_false_iff] at ha ⊢
      unfold imgAttrsF
      split
      · refine getAttr_filter_none _ _ _ ?_
        rw [getAttr_delAttr_ne _ _ _ (by decide : ("alt" : String) ≠ "srcset"),
          getAttr_delAttr_ne _ _ _ (by decide : ("alt" : String) ≠ "src")]
        exact ha
      · exact ha
    rw [srcsetStage]
    apply anyD_mapD_pres _ _ ?_ _ ?_
    · intro t a ha
      simp only [qHasAttr, hasAttr_eq_false_iff] at ha ⊢
      rw [getAttr_delAttr_ne _ _ _ (by decide : ("alt" : String) ≠ "srcset")]
      exact ha
    apply anyD_removeTagsD_pres
    apply anyD_removeTagsD_pres
    apply anyD_removeTagsD_pres
    exact h

/-- Witness for C4's amended theorem at concrete inputs: an `img` with a
`src` and no `alt` gets exactly the placeholder; an `img` without `src` is
untouched by the light mode's img loop; the collapse mode introduces no
`alt` on an alt-free input tree. -/
theorem c4_light_sanitizer_sets_alt_witness :
    getAttr (imgSrcRewrite "img" [("src", "http://evil.test/x.png")]) "alt" =
      some "[image disabled]" ∧
    imgSrcRewrite "img" [("alt", "logo")] = [("alt", "logo")] ∧
    anyD (elemPred (qHasAttr "alt"))
      (sanitize_html_ [Node.element "img" [("src", "http://evil.test/x.png")] []]) = false :=
  ⟨(c4_light_sanitizer_sets_alt.1 [("src", "http://evil.test/x.png")]
      "http://evil.test/x.png" (by decide) (by decide)).1,
   c4_light_sanitizer_sets_alt.2.1 "img" [("alt", "logo")] (by decide),
   c4_light_sanitizer_sets_alt.2.2.2 [Node.element "img" [("src", "http://evil.test/x.png")] []]
     (by decide)⟩

/-- C5, counterexample: a `button` whose `type` is `reset` — effective type
not in {submit, image, button} — is nevertheless given the `disabled`
marker by `sanitize_html_` (the code disables every descendant `button`
unconditionally, line 167-168), refuting the claimed "if and only if". -/
theorem c5_counterexample_reset_button_disabled :
    sanitize_html_ [Node.element "form" [] [Node.element "button" [("type", "reset")] []]] =
      [noticeNode,
       Node.element "form" [("action", "#"), ("method", "get")]
         [Node.element "button" [("type", "reset"), ("disabled", "disabled")] []]] :=
  rfl

/-- C5, amended: every `form` element in `sanitize_html_`'s output has
`action="#"` and `method="get"`; a descendant `input` receives the
`disabled` marker iff its `type` attribute lowercased is `submit`, `image`
or `button` (an `input` with no `type` attribute is not disabled); a
descendant `button` receives the `disabled` marker unconditionally,
whatever its `type`. -/
theorem c5_form_neutralization :
    (∀ d : Doc, anyD (elemPred qFormLive) (sanitize_html_ d) = false) ∧
    (∀ (a : Attrs) (c : List Node),
      formN true (Node.element "input" a c) =
        Node.element "input"
          (if submitTypes.contains (pyLower ((getAttr a "type").getD ""))
           then setAttr a "disabled" "disabled" else a)
          (formD true c)) ∧
    (∀ (a : Attrs) (c : List Node),
      formN true (Node.element "button" a c) =
        Node.element "button" (setAttr a "disabled" "disabled") (formD true c)) := by
  refine ⟨inv_formNeutralized, ?_, ?_⟩
  · intro a c
    rw [formN]
    simp only [formUpdate,
      show (("input" : String) == "form") = false from by decide,
      show (("input" : String) == "input") = true from by decide,
      show (("input" : String) == "button") = false from by decide,
      Bool.true_and, Bool.and_false, Bool.false_and, Bool.or_false,
      Bool.false_eq_true, if_false]
  · intro a c
    rw [formN]
    simp only [formUpdate,
      show (("button" : String) == "form") = false from by decide,
      show (("button" : String) == "input") = false from by decide,
      show (("button" : String) == "button") = true from by decide,
      Bool.true_and, Bool.and_false, Bool.false_and, Bool.or_false,
      Bool.false_eq_true, if_false, if_true]

/-- C6: the sanitizer engine `sanitize_html_` is a total function of the
parse tree; its serialized output is never the empty string (it always
contains the sanitization notice, whose serialization starts with `<`), and
on the empty document — the parse of the empty input string — the output is
exactly the notice element. -/
theorem c6_sanitize_total_nonempty_notice :
    (∀ d : Doc, 0 < (serializeD (sanitize_html_ d)).length ∧
      anyD isNotice (sanitize_html_ d) = true) ∧
    sanitize_html_ [] = [noticeNode] := by
  refine ⟨fun d => ?_, rfl⟩
  have hnotice : anyD isNotice (sanitize_html_ d) = true := by
    simp only [sanitize_html_]
    exact anyD_noticeStage_notice _
  exact ⟨anyD_isNotice_length _ hnotice, hnotice⟩

/-- C7: a second pass of the sanitizer engine over its own output rewrites
or removes no further unsafe attribute: on `sanitize_html_ d`, the srcset,
img, href, src and event-handler stages are all the identity (every `href`,
`src` and on-attribute present after the first pass is left unchanged by
the second). -/
theorem c7_second_pass_noop (d : Doc) :
    srcsetStage (sanitize_html_ d) = sanitize_html_ d ∧
    imgStage (sanitize_html_ d) = sanitize_html_ d ∧
    hrefStage (sanitize_html_ d) = sanitize_html_ d ∧
    srcStage (sanitize_html_ d) = sanitize_html_ d ∧
    onStage (sanitize_html_ d) = sanitize_html_ d := by
  refine ⟨?_, ?_, ?_, ?_, ?_⟩
  · rw [srcsetStage]
    exact mapD_id_of (qHasAttr "srcset") _
      (fun t a ha => delAttr_of_getAttr_none a _ ((hasAttr_eq_false_iff a _).mp ha))
      _ (inv_noSrcset d)
  · rw [imgStage]
    exact mapD_id_of qImgTouch imgAttrsF imgAttrsF_id _ (inv_imgTouch d)
  · rw [hrefStage]
    exact mapD_id_of qHrefNotExempt _ (fun t a ha => hrefFix_id t a ha) _ (inv_noHrefBad d)
  · rw [srcStage]
    exact mapD_id_of (qHasAttr "src") _
      (fun t a ha => delAttr_of_getAttr_none a _ ((hasAttr_eq_false_iff a _).mp ha))
      _ (inv_noSrc d)
  · rw [onStage]
    exact mapD_id_of qAnyOnLower _ (fun t a ha => filter_of_any_not a _ ha) _ (inv_noOnLower d)

/-- C8: the pipeline boundary (lines 297-301) delivers the sanitizer's
result when the call returns, and the fixed fallback paragraph when the
call raises — it never re-raises, so the caller observes a string in every
case. -/
theorem c8_boundary_fallback :
    (∀ e : String, renderSanitized (Except.error e) = fallbackHtml) ∧
    (∀ s : String, renderSanitized (Except.ok s) = s) :=
  ⟨fun _ => rfl, fun _ => rfl⟩

/-- C9: the sanitizer the pipeline invokes (`sanitize_html`) only ever
modifies the `href` attribute of `a` elements and the `src`/`alt`
attributes of `img` elements; every other node — including `script` and
`iframe` elements and attributes whose names start with `on` — keeps its
tag, attribute list, text and position exactly, so it serializes
unchanged. -/
theorem c9_light_sanitizer_frame : ∀ d : Doc, frameD d (sanitize_html d) :=
  fun d => frameD_sanitize d

/-- C10: in the inert-scheme-prefix sanitizer `sanitize_html`, the only
`href` values exempt from rewriting are those starting with `#`: an
`a`-element href starting with `#` is kept verbatim, and any other value —
including `mailto:` and `javascript:` ones, unlike in the collapse-to-`#`
mode — is prefixed with `https://noice://`. -/
theorem c10_only_hash_exempt (a : Attrs) (c : List Node) (v : String)
    (hv : getAttr a "href" = some v) :
    (pyStartsWith v "#" = true →
      sanitize_html [Node.element "a" a c] =
        [Node.element "a" a (mapD imgSrcRewrite (mapD aHrefRewrite c))]) ∧
    (pyStartsWith v "#" = false →
      getAttr (aHrefRewrite "a" a) "href" = some ("https://noice://" ++ v) ∧
      sanitize_html [Node.element "a" a c] =
        [Node.element "a" (setAttr a "href" ("https://noice://" ++ v))
          (mapD imgSrcRewrite (mapD aHrefRewrite c))]) := by
  constructor
  · intro hps
    have ha : aHrefRewrite "a" a = a := by simp [aHrefRewrite, hv, hps]
    show [Node.element "a" (imgSrcRewrite "a" (aHrefRewrite "a" a))
        (mapD imgSrcRewrite (mapD aHrefRewrite c))] =
      [Node.element "a" a (mapD imgSrcRewrite (mapD aHrefRewrite c))]
    rw [ha]
    exact rfl
  · intro hps
    have ha : aHrefRewrite "a" a = setAttr a "href" ("https://noice://" ++ v) := by
      simp [aHrefRewrite, hv, hps]
    constructor
    · rw [ha]
      exact getAttr_setAttr_self a _ _
    · show [Node.element "a" (imgSrcRewrite "a" (aHrefRewrite "a" a))
          (mapD imgSrcRewrite (mapD aHrefRewrite c))] =
        [Node.element "a" (setAttr a "href" ("https://noice://" ++ v))
          (mapD imgSrcRewrite (mapD aHrefRewrite c))]
      rw [ha]
      exact rfl

/-- Witness for C10 at concrete inputs: `mailto:` and `javascript:` hrefs
are both rewritten with the inert prefix by the light sanitizer. -/
theorem c10_only_hash_exempt_witness :
    getAttr (aHrefRewrite "a" [("href", "mailto:bob@example.org")]) "href" =
      some ("https://noice://" ++ "mailto:bob@example.org") ∧
    getAttr (aHrefRewrite "a" [("href", "javascript:alert(1)")]) "href" =
      some ("https://noice://" ++ "javascript:alert(1)") :=
  ⟨((c10_only_hash_exempt [("href", "mailto:bob@example.org")] []
      "mailto:bob@example.org" (by decide)).2 (by decide)).1,
   ((c10_only_hash_exempt [("href", "javascript:alert(1)")] []
      "javascript:alert(1)" (by decide)).2 (by decide)).1⟩

